import Mathlib

/-!
Verification development for the `self_cell` crate (src/src/lib.rs).

The crate's macro generates, for a struct holding an owner and a dependent
derived from a reference to that owner, three constructors (`new`,
`try_from`, `from_fn`), accessors (`borrow_owner`, `with_dependent`,
`borrow_dependent`), a `Drop` implementation, and automatic derives
(`Clone`, `PartialEq`, ...). All state lives in one heap-allocated
`JoinedCell { owner, dependent }` block.

The shallow embedding below models the heap explicitly: a heap is a finite
association list from block addresses to block states, together with the
next fresh address. Every construction / destruction step additionally
emits an event, so ordering and exactly-once properties of the
construction and destruction protocols can be stated over event traces.
-/

set_option autoImplicit false

namespace SelfCellModel

universe u v w

variable {O : Type u} {D : Type v} {E : Type w}

/-- Modelled from the spec: the `JoinedCell { owner, dependent }` block of
`unsafe_self_cell.rs` (declared in src/src/lib.rs but not present under
src/). A block is raw after `alloc`, holds only the owner after the owner
is written, and holds both fields once the dependent is written in place. -/
inductive BlockState (O : Type u) (D : Type v) where
  | rawAlloc : BlockState O D
  | ownerOnly : O → BlockState O D
  | full : O → D → BlockState O D
  deriving DecidableEq

/-- A heap: allocated blocks keyed by address, plus the next fresh address.
Models the host allocator used through `alloc::alloc::alloc` / `dealloc`. -/
structure Heap (O : Type u) (D : Type v) where
  blocks : List (Nat × BlockState O D)
  nextAddr : Nat
  deriving DecidableEq

/-- Events emitted by the construction and destruction protocols, used to
state ordering and exactly-once properties. -/
inductive Event where
  | alloc : Nat → Event
  | writeOwner : Nat → Event
  | writeDep : Nat → Event
  | dropDep : Nat → Event
  | dropOwner : Nat → Event
  | dealloc : Nat → Event
  deriving DecidableEq

def Heap.empty (O : Type u) (D : Type v) : Heap O D := ⟨[], 0⟩

/-- Addresses of the currently allocated blocks. -/
def Heap.liveAddrs (h : Heap O D) : List Nat := h.blocks.map (fun e => e.1)

/-- Heap well-formedness: every allocated address is below `nextAddr`, so a
fresh allocation never collides with a live block. -/
def Heap.wfb (h : Heap O D) : Bool := h.blocks.all (fun e => e.1 < h.nextAddr)

/-- Look up the state of the block at address `p`. -/
def Heap.lookupBlock (h : Heap O D) (p : Nat) : Option (BlockState O D) :=
  (h.blocks.find? (fun e => e.1 == p)).map (fun e => e.2)

/-- Replace the state of the block at address `p`. -/
def Heap.setBlock (h : Heap O D) (p : Nat) (b : BlockState O D) : Heap O D :=
  ⟨h.blocks.map (fun e => if e.1 == p then (p, b) else e), h.nextAddr⟩

/-- `alloc::alloc::alloc` for a `JoinedCell` layout: reserve a fresh block,
initially raw. Returns the new address. -/
def Heap.allocBlock (h : Heap O D) : Nat × Heap O D :=
  (h.nextAddr, ⟨(h.nextAddr, BlockState.rawAlloc) :: h.blocks, h.nextAddr + 1⟩)

/-- `alloc::alloc::dealloc`: release the block at address `p`. -/
def Heap.freeBlock (h : Heap O D) (p : Nat) : Heap O D :=
  ⟨h.blocks.filter (fun e => !(e.1 == p)), h.nextAddr⟩

/-- `addr_of_mut!((*joined_ptr).owner).write(owner)`: write the owner field
of the block at `p`, leaving any dependent field untouched. -/
def Heap.writeOwner (h : Heap O D) (p : Nat) (o : O) : Heap O D :=
  match h.lookupBlock p with
  | some (BlockState.full _ d) => h.setBlock p (BlockState.full o d)
  | some _ => h.setBlock p (BlockState.ownerOnly o)
  | none => h

/-- `addr_of_mut!((*joined_ptr).dependent).write(dep)`: write the dependent
field of the block at `p` next to the owner already in place. -/
def Heap.writeDep (h : Heap O D) (p : Nat) (d : D) : Heap O D :=
  match h.lookupBlock p with
  | some (BlockState.ownerOnly o) => h.setBlock p (BlockState.full o d)
  | some (BlockState.full o _) => h.setBlock p (BlockState.full o d)
  | _ => h

/-- Read the owner field of the block at `p` (the `&(*joined_ptr).owner`
reference: the owner as it sits in the block, at its final address). -/
def Heap.readOwner (h : Heap O D) (p : Nat) : Option O :=
  match h.lookupBlock p with
  | some (BlockState.ownerOnly o) => some o
  | some (BlockState.full o _) => some o
  | _ => none

/-- Read the dependent field of the block at `p`. -/
def Heap.readDep (h : Heap O D) (p : Nat) : Option D :=
  match h.lookupBlock p with
  | some (BlockState.full _ d) => some d
  | _ => none

/-- `drop_in_place(addr_of_mut!((*joined_ptr).owner))`: run the owner's
destructor in place; the block stays allocated but its owner field is gone.
Only ever applied to a block whose dependent was never written. -/
def Heap.dropOwnerInPlace (h : Heap O D) (p : Nat) : Heap O D :=
  match h.lookupBlock p with
  | some (BlockState.ownerOnly _) => h.setBlock p BlockState.rawAlloc
  | _ => h

/-- Run the dependent's destructor in place; owner stays in the block. -/
def Heap.dropDepInPlace (h : Heap O D) (p : Nat) : Heap O D :=
  match h.lookupBlock p with
  | some (BlockState.full o _) => h.setBlock p (BlockState.ownerOnly o)
  | _ => h

/-- The generated struct: it stores only the pointer to the joined block
(the `UnsafeSelfCell` field is a thin pointer). -/
structure SelfCell where
  ptr : Nat
  deriving DecidableEq

/-- The `from` constructor arm of `_cell_constructor!` (src/src/lib.rs
lines 152-182): allocate the joined block, move the owner into it, then
initialize the dependent in place from the owner reference in its final
place (`(&(*joined_ptr).owner)`, here the owner read back from the block),
and wrap the pointer. Returns the cell, the new heap and the event trace. -/
def new (derive : O → D) (owner : O) (h : Heap O D) :
    SelfCell × Heap O D × List Event :=
  let (p, h1) := h.allocBlock
  let h2 := h1.writeOwner p owner
  let dep := derive ((h2.readOwner p).getD owner)
  let h3 := h2.writeDep p dep
  (⟨p⟩, h3, [Event.alloc p, Event.writeOwner p, Event.writeDep p])

/-- The `try_from` constructor arm of `_cell_constructor!` (src/src/lib.rs
lines 183-231): allocate, move the owner in, attempt the fallible
conversion from the in-block owner reference. On success write the
dependent in place and return the cell; on error drop the owner in place,
deallocate the block and propagate the error. -/
def tryFrom (tryDerive : O → Except E D) (owner : O) (h : Heap O D) :
    Except E SelfCell × Heap O D × List Event :=
  let (p, h1) := h.allocBlock
  let h2 := h1.writeOwner p owner
  match tryDerive ((h2.readOwner p).getD owner) with
  | Except.ok dep =>
      (Except.ok ⟨p⟩, h2.writeDep p dep,
        [Event.alloc p, Event.writeOwner p, Event.writeDep p])
  | Except.error err =>
      (Except.error err, (h2.dropOwnerInPlace p).freeBlock p,
        [Event.alloc p, Event.writeOwner p, Event.dropOwner p, Event.dealloc p])

/-- The `from_fn` constructor arm of `_cell_constructor!` (src/src/lib.rs
lines 232-275): identical to `new` except the owner-to-dependent
derivation is the `dependent_builder` argument supplied at call time. -/
def fromFn (dependentBuilder : O → D) (owner : O) (h : Heap O D) :
    SelfCell × Heap O D × List Event :=
  let (p, h1) := h.allocBlock
  let h2 := h1.writeOwner p owner
  let dep := dependentBuilder ((h2.readOwner p).getD owner)
  let h3 := h2.writeDep p dep
  (⟨p⟩, h3, [Event.alloc p, Event.writeOwner p, Event.writeDep p])

/-- `new` with the conversion's abnormal exit made explicit: the
derivation returns `none` to model a panic of `Into::into`. The source
(src/src/lib.rs lines 152-182) has no cleanup code on this path: the
unwind leaves the heap as it was after the owner write, and emits no
drop or dealloc event, so the owner value and the block are leaked. -/
def newPanicking (derive : O → Option D) (owner : O) (h : Heap O D) :
    Option SelfCell × Heap O D × List Event :=
  let (p, h1) := h.allocBlock
  let h2 := h1.writeOwner p owner
  match derive ((h2.readOwner p).getD owner) with
  | some dep =>
      (some ⟨p⟩, h2.writeDep p dep,
        [Event.alloc p, Event.writeOwner p, Event.writeDep p])
  | none => (none, h2, [Event.alloc p, Event.writeOwner p])

/-- `from_fn` with the builder's abnormal exit made explicit, exactly as
in `newPanicking`: the source (src/src/lib.rs lines 232-275) has no
cleanup code on the panic path either. -/
def fromFnPanicking (dependentBuilder : O → Option D) (owner : O) (h : Heap O D) :
    Option SelfCell × Heap O D × List Event :=
  let (p, h1) := h.allocBlock
  let h2 := h1.writeOwner p owner
  match dependentBuilder ((h2.readOwner p).getD owner) with
  | some dep =>
      (some ⟨p⟩, h2.writeDep p dep,
        [Event.alloc p, Event.writeOwner p, Event.writeDep p])
  | none => (none, h2, [Event.alloc p, Event.writeOwner p])

/-- Modelled from the spec: `UnsafeSelfCell::borrow_owner` lives in
`unsafe_self_cell.rs` (declared in src/src/lib.rs line 147 but not under
src/); per spec 4.2 it is a pure typed view over the allocation, always
valid while the handle is alive. The generated `borrow_owner`
(src/src/lib.rs lines 504-506) forwards to it. -/
def borrowOwner (c : SelfCell) (h : Heap O D) : Option O :=
  h.readOwner c.ptr

/-- Modelled from the spec: `UnsafeSelfCell::borrow_dependent` of
`unsafe_self_cell.rs` (not under src/), a pure read of the dependent
field. The generated covariant-only `borrow_dependent`
(src/src/lib.rs lines 284-293) forwards to it. -/
def borrowDependent (c : SelfCell) (h : Heap O D) : Option D :=
  h.readDep c.ptr

/-- The generated `with_dependent` (src/src/lib.rs lines 508-515): call
`func` with the owner and dependent references read from the block. -/
def withDependent {R : Type w} (c : SelfCell) (h : Heap O D)
    (func : O → D → R) : Option R :=
  match h.readOwner c.ptr, h.readDep c.ptr with
  | some o, some d => some (func o d)
  | _, _ => none

/-- Modelled from the spec: `UnsafeSelfCell::drop_joined` lives in
`unsafe_self_cell.rs` (not under src/); per spec 4.5 the destruction
protocol runs the dependent's destructor first, then the owner's, then
releases the allocation. The generated `Drop` impl (src/src/lib.rs lines
520-526) calls it exactly once when the handle is dropped. -/
def dropJoined (c : SelfCell) (h : Heap O D) : Heap O D × List Event :=
  let h1 := h.dropDepInPlace c.ptr
  let h2 := h1.dropOwnerInPlace c.ptr
  let h3 := h2.freeBlock c.ptr
  (h3, [Event.dropDep c.ptr, Event.dropOwner c.ptr, Event.dealloc c.ptr])

/-- Spec 4.5 handle state machine: {Alive, Destroyed}. Rust's move-only,
single-owner semantics structurally prevent a second drop; the model makes
that explicit as a state in which dropping does nothing. -/
inductive HandleState where
  | alive : HandleState
  | destroyed : HandleState
  deriving DecidableEq

/-- The generated `Drop::drop` (src/src/lib.rs lines 520-526) guarded by
the spec 4.5 state machine: from Alive it runs `dropJoined` and moves to
Destroyed; in Destroyed no destruction code can run again. -/
def dropHandle (c : SelfCell) (st : HandleState) (h : Heap O D) :
    HandleState × Heap O D × List Event :=
  match st with
  | HandleState.alive =>
      let (h1, tr) := dropJoined c h
      (HandleState.destroyed, h1, tr)
  | HandleState.destroyed => (HandleState.destroyed, h, [])

/-- The constructor marker of the macro: `from`, `try_from` or `from_fn`
(src/src/lib.rs lines 151-279). -/
inductive ConstructorType where
  | fromOwner : ConstructorType
  | tryFromOwner : ConstructorType
  | fromFnOwner : ConstructorType
  deriving DecidableEq

/-- Which constructor markers admit the automatic `Clone` derive: the
generated `Clone` (src/src/lib.rs lines 308-315) calls `Self::new`, which
only the `from` arm generates; the `from_fn` arm notes Clone cannot be
automatically implemented (line 251) and the Clone arm notes `try_from`
is unsupported (line 311). -/
def cloneAvailable : ConstructorType → Bool
  | ConstructorType.fromOwner => true
  | ConstructorType.tryFromOwner => false
  | ConstructorType.fromFnOwner => false

/-- The automatic `Clone` derive (src/src/lib.rs lines 308-315):
`Self::new(self.borrow_owner().clone())` — duplicate the owner and run the
direct constructor on the copy. -/
def cloneCell (derive : O → D) (c : SelfCell) (h : Heap O D) :
    Option (SelfCell × Heap O D × List Event) :=
  (borrowOwner c h).map (fun o => new derive o h)

/-- The automatic `PartialEq` derive (src/src/lib.rs lines 332-338):
`*self.borrow_owner() == *other.borrow_owner()`. -/
def cellEq [DecidableEq O] (c1 c2 : SelfCell) (h : Heap O D) : Option Bool :=
  match borrowOwner c1 h, borrowOwner c2 h with
  | some o1, some o2 => some (decide (o1 = o2))
  | _, _ => none

/-- Outcome of a memory operation that the source performs without any
check: writing through the null pointer returned by a failed allocation. -/
inductive MemFault where
  | nullWrite : MemFault
  deriving DecidableEq

/-- `alloc::alloc::alloc` with its failure mode made explicit: on failure
the allocator returns the null pointer, modelled as `none`; the heap is
unchanged. `oom` selects the allocator outcome. -/
def Heap.allocBlockMay (h : Heap O D) (oom : Bool) : Option Nat × Heap O D :=
  if oom then (none, h)
  else (some h.nextAddr, ⟨(h.nextAddr, BlockState.rawAlloc) :: h.blocks, h.nextAddr + 1⟩)

/-- The `from` constructor with the allocator's failure made explicit. The
source (src/src/lib.rs lines 162-173) transmutes the pointer returned by
alloc and writes the owner through it without inspecting it; when the
allocation failed that next step is a write through the null pointer,
which the memory model reports as a fault — not as an allocation error
reported before the write. -/
def newAllocAware (derive : O → D) (owner : O) (oom : Bool) (h : Heap O D) :
    Except MemFault (SelfCell × Heap O D) :=
  match h.allocBlockMay oom with
  | (none, _) => Except.error MemFault.nullWrite
  | (some p, h1) =>
      let h2 := h1.writeOwner p owner
      let dep := derive ((h2.readOwner p).getD owner)
      Except.ok (⟨p⟩, h2.writeDep p dep)

/-- The `try_from` constructor with the allocator's failure made explicit,
exactly as in `newAllocAware`: the source (src/src/lib.rs lines 195-202)
also writes the owner through the returned pointer without any check. -/
def tryFromAllocAware (tryDerive : O → Except E D) (owner : O) (oom : Bool)
    (h : Heap O D) : Except MemFault (Except E SelfCell × Heap O D) :=
  match h.allocBlockMay oom with
  | (none, _) => Except.error MemFault.nullWrite
  | (some p, h1) =>
      let h2 := h1.writeOwner p owner
      match tryDerive ((h2.readOwner p).getD owner) with
      | Except.ok dep => Except.ok (Except.ok ⟨p⟩, h2.writeDep p dep)
      | Except.error err =>
          Except.ok (Except.error err, (h2.dropOwnerInPlace p).freeBlock p)

/-- Number of occurrences of event `e` in a trace. -/
def countEv (e : Event) : List Event → Nat
  | [] => 0
  | x :: xs => (if x = e then 1 else 0) + countEv e xs

/-- Index of the first occurrence of event `e` in a trace. -/
def firstIdx (e : Event) : List Event → Nat
  | [] => 0
  | x :: xs => if x = e then 0 else firstIdx e xs + 1

/-- A well-formed heap has every allocated address below `nextAddr`. -/
theorem wfb_keys (h : Heap O D) (hwf : h.wfb = true) :
    ∀ x ∈ h.blocks, x.1 < h.nextAddr := by
  intro x hx
  exact of_decide_eq_true (List.all_eq_true.mp hwf x hx)

/-- Updating the block at an address strictly above every key leaves the
association list unchanged. -/
theorem map_set_id (l : List (Nat × BlockState O D)) (p : Nat) (b : BlockState O D)
    (hk : ∀ x ∈ l, x.1 < p) :
    l.map (fun e => if e.1 == p then (p, b) else e) = l := by
  induction l with
  | nil => rfl
  | cons a t ih =>
    have ha : ¬((a.1 == p) = true) := by
      simp [Nat.ne_of_lt (hk a (List.mem_cons_self a t))]
    have ht := ih (fun x hx => hk x (List.mem_cons_of_mem a hx))
    simp only [List.map_cons, if_neg ha, ht]

/-- Removing the block at an address strictly above every key leaves the
association list unchanged. -/
theorem filter_ne_id (l : List (Nat × BlockState O D)) (p : Nat)
    (hk : ∀ x ∈ l, x.1 < p) :
    l.filter (fun e => !(e.1 == p)) = l := by
  induction l with
  | nil => rfl
  | cons a t ih =>
    have ha : (!(a.1 == p)) = true := by
      simp [Nat.ne_of_lt (hk a (List.mem_cons_self a t))]
    have ht := ih (fun x hx => hk x (List.mem_cons_of_mem a hx))
    simp only [List.filter_cons, if_pos ha, ht]

/-- Variant of `map_set_id` in the propositional-test form that rewriting
normalizes the address test to. -/
theorem map_set_id_eq (l : List (Nat × BlockState O D)) (p : Nat) (b : BlockState O D)
    (hk : ∀ x ∈ l, x.1 < p) :
    l.map (fun e => if e.1 = p then (p, b) else e) = l := by
  induction l with
  | nil => rfl
  | cons a t ih =>
    have ha : a.1 ≠ p := Nat.ne_of_lt (hk a (List.mem_cons_self a t))
    have ht := ih (fun x hx => hk x (List.mem_cons_of_mem a hx))
    simp only [List.map_cons, if_neg ha, ht]

/-- No block lives at an address strictly above every key. -/
theorem find_none_of_keys_lt (l : List (Nat × BlockState O D)) (p : Nat)
    (hk : ∀ x ∈ l, x.1 < p) :
    l.find? (fun e => e.1 == p) = none := by
  induction l with
  | nil => rfl
  | cons a t ih =>
    have ha : ¬((a.1 == p) = true) := by
      simp [Nat.ne_of_lt (hk a (List.mem_cons_self a t))]
    rw [List.find?_cons_of_neg t ha]
    exact ih (fun x hx => hk x (List.mem_cons_of_mem a hx))

/-- The entry returned by an address search carries that address and is a
member of the list. -/
theorem find_some_key (l : List (Nat × BlockState O D)) (p : Nat)
    (e : Nat × BlockState O D) (hf : l.find? (fun x => x.1 == p) = some e) :
    e.1 = p ∧ e ∈ l := by
  induction l with
  | nil => cases hf
  | cons a t ih =>
    by_cases hb : (a.1 == p) = true
    · rw [List.find?_cons_of_pos t hb] at hf
      cases hf
      exact ⟨by simpa using hb, List.mem_cons_self _ t⟩
    · rw [List.find?_cons_of_neg t hb] at hf
      rcases ih hf with ⟨h1, h2⟩
      exact ⟨h1, List.mem_cons_of_mem a h2⟩

/-- In a well-formed heap, a live address is below `nextAddr`. -/
theorem key_lt_of_lookup_some (h : Heap O D) (p : Nat) (b : BlockState O D)
    (hwf : h.wfb = true) (hl : h.lookupBlock p = some b) : p < h.nextAddr := by
  unfold Heap.lookupBlock at hl
  rcases Option.map_eq_some'.mp hl with ⟨e, hfind, rfl⟩
  rcases find_some_key h.blocks p e hfind with ⟨h1, h2⟩
  have := wfb_keys h hwf e h2
  omega

/-- C3: after direct construction from owner O, borrow_owner returns a
value equal to O, and with_dependent yields a dependent equal to the
derivation applied to a reference to O, computed independently. -/
theorem new_borrow_owner_with_dependent (derive : O → D) (owner : O) (h : Heap O D) :
    borrowOwner (new derive owner h).1 (new derive owner h).2.1 = some owner ∧
    withDependent (new derive owner h).1 (new derive owner h).2.1 (fun _ d => d) =
      some (derive owner) := by
  simp [new, Heap.allocBlock, Heap.writeOwner, Heap.writeDep, Heap.lookupBlock,
        Heap.setBlock, Heap.readOwner, Heap.readDep, borrowOwner, withDependent,
        List.find?]

/-- C7: the value observed through the direct accessor borrow_dependent is
the same as the dependent observed through the with_dependent joint
callback on the same cell. -/
theorem borrow_dependent_eq_with_dependent (c : SelfCell) (h : Heap O D) :
    borrowDependent c h = withDependent c h (fun _ d => d) := by
  cases hl : h.lookupBlock c.ptr with
  | none =>
      simp [borrowDependent, withDependent, Heap.readOwner, Heap.readDep, hl]
  | some b =>
      cases b <;>
        simp [borrowDependent, withDependent, Heap.readOwner, Heap.readDep, hl]

/-- C1: over a full construction/destruction cycle, the dependent's
destructor runs strictly before the owner's, each exactly once, the
allocation is released only after both, the handle transitions to
Destroyed, and the destruction protocol cannot run a second time. -/
theorem destruction_order_exactly_once (derive : O → D) (owner : O) (h : Heap O D) :
    countEv (Event.dropDep (new derive owner h).1.ptr)
        ((new derive owner h).2.2 ++
          (dropHandle (new derive owner h).1 HandleState.alive
            (new derive owner h).2.1).2.2) = 1 ∧
    countEv (Event.dropOwner (new derive owner h).1.ptr)
        ((new derive owner h).2.2 ++
          (dropHandle (new derive owner h).1 HandleState.alive
            (new derive owner h).2.1).2.2) = 1 ∧
    countEv (Event.dealloc (new derive owner h).1.ptr)
        ((new derive owner h).2.2 ++
          (dropHandle (new derive owner h).1 HandleState.alive
            (new derive owner h).2.1).2.2) = 1 ∧
    firstIdx (Event.dropDep (new derive owner h).1.ptr)
        ((new derive owner h).2.2 ++
          (dropHandle (new derive owner h).1 HandleState.alive
            (new derive owner h).2.1).2.2) <
      firstIdx (Event.dropOwner (new derive owner h).1.ptr)
        ((new derive owner h).2.2 ++
          (dropHandle (new derive owner h).1 HandleState.alive
            (new derive owner h).2.1).2.2) ∧
    firstIdx (Event.dropOwner (new derive owner h).1.ptr)
        ((new derive owner h).2.2 ++
          (dropHandle (new derive owner h).1 HandleState.alive
            (new derive owner h).2.1).2.2) <
      firstIdx (Event.dealloc (new derive owner h).1.ptr)
        ((new derive owner h).2.2 ++
          (dropHandle (new derive owner h).1 HandleState.alive
            (new derive owner h).2.1).2.2) ∧
    (dropHandle (new derive owner h).1 HandleState.alive
        (new derive owner h).2.1).1 = HandleState.destroyed ∧
    (dropHandle (new derive owner h).1 HandleState.destroyed
        (dropHandle (new derive owner h).1 HandleState.alive
          (new derive owner h).2.1).2.1).2.2 = [] := by
  simp [new, dropHandle, dropJoined, countEv, firstIdx]

/-- C2: when the derivation reports an error, try_from destroys the owner
in place (exactly one owner-destructor event, no dependent ever written),
frees the block (the address is dead and the live-address set is exactly
what it was before the call), and returns exactly the derivation's error. -/
theorem try_from_error_cleanup (tryDerive : O → Except E D) (owner : O) (e : E)
    (h : Heap O D) (hwf : h.wfb = true) (he : tryDerive owner = Except.error e) :
    (tryFrom tryDerive owner h).1 = Except.error e ∧
    (tryFrom tryDerive owner h).2.1.liveAddrs = h.liveAddrs ∧
    (tryFrom tryDerive owner h).2.1.lookupBlock h.nextAddr = none ∧
    countEv (Event.dropOwner h.nextAddr) (tryFrom tryDerive owner h).2.2 = 1 ∧
    countEv (Event.writeDep h.nextAddr) (tryFrom tryDerive owner h).2.2 = 0 := by
  have hkeys := wfb_keys h hwf
  have hm1 := map_set_id_eq h.blocks h.nextAddr (BlockState.ownerOnly owner) hkeys
  have hm2 := map_set_id_eq h.blocks h.nextAddr BlockState.rawAlloc hkeys
  have hfl := filter_ne_id h.blocks h.nextAddr hkeys
  have hfn := find_none_of_keys_lt h.blocks h.nextAddr hkeys
  simp [tryFrom, Heap.allocBlock, Heap.writeOwner, Heap.lookupBlock, Heap.setBlock,
        Heap.readOwner, Heap.dropOwnerInPlace, Heap.freeBlock, Heap.liveAddrs,
        he, hm1, hm2, hfl, hfn, countEv, -List.map_map]

/-- C4: in all three construction protocols the owner-write event strictly
precedes the dependent-write event (after the allocation), and the
dependent stored in the block equals the derivation applied to the owner
as stored in the block; in the model the derivation's argument is read
back from the block after the owner write, never taken from a temporary. -/
theorem owner_settled_before_dependent (derive dependentBuilder : O → D)
    (tryDerive : O → Except E D) (owner : O) (d : D)
    (htry : tryDerive owner = Except.ok d) (h : Heap O D) :
    ((new derive owner h).2.2 =
        [Event.alloc h.nextAddr, Event.writeOwner h.nextAddr,
         Event.writeDep h.nextAddr] ∧
     firstIdx (Event.writeOwner h.nextAddr) (new derive owner h).2.2 <
       firstIdx (Event.writeDep h.nextAddr) (new derive owner h).2.2 ∧
     (new derive owner h).2.1.readOwner h.nextAddr = some owner ∧
     (new derive owner h).2.1.readDep h.nextAddr = some (derive owner)) ∧
    ((fromFn dependentBuilder owner h).2.2 =
        [Event.alloc h.nextAddr, Event.writeOwner h.nextAddr,
         Event.writeDep h.nextAddr] ∧
     firstIdx (Event.writeOwner h.nextAddr) (fromFn dependentBuilder owner h).2.2 <
       firstIdx (Event.writeDep h.nextAddr) (fromFn dependentBuilder owner h).2.2 ∧
     (fromFn dependentBuilder owner h).2.1.readOwner h.nextAddr = some owner ∧
     (fromFn dependentBuilder owner h).2.1.readDep h.nextAddr =
       some (dependentBuilder owner)) ∧
    ((tryFrom tryDerive owner h).2.2 =
        [Event.alloc h.nextAddr, Event.writeOwner h.nextAddr,
         Event.writeDep h.nextAddr] ∧
     firstIdx (Event.writeOwner h.nextAddr) (tryFrom tryDerive owner h).2.2 <
       firstIdx (Event.writeDep h.nextAddr) (tryFrom tryDerive owner h).2.2 ∧
     (tryFrom tryDerive owner h).2.1.readOwner h.nextAddr = some owner ∧
     (tryFrom tryDerive owner h).2.1.readDep h.nextAddr = some d) := by
  simp [new, fromFn, tryFrom, Heap.allocBlock, Heap.writeOwner, Heap.writeDep,
        Heap.lookupBlock, Heap.setBlock, Heap.readOwner, Heap.readDep,
        htry, firstIdx, List.find?]

/-- C5: in the direct and builder protocols, if the owner-to-dependent
conversion aborts abnormally (modelled by the derivation returning none)
the owner value and the heap block are leaked: the block is still
allocated with the owner inside, and no owner-destructor or deallocation
event is emitted. -/
theorem panic_during_derivation_leaks (derive dependentBuilder : O → Option D)
    (owner : O) (h : Heap O D)
    (hd : derive owner = none) (hb : dependentBuilder owner = none) :
    ((newPanicking derive owner h).1 = none ∧
     (newPanicking derive owner h).2.1.lookupBlock h.nextAddr =
       some (BlockState.ownerOnly owner) ∧
     countEv (Event.dropOwner h.nextAddr) (newPanicking derive owner h).2.2 = 0 ∧
     countEv (Event.dealloc h.nextAddr) (newPanicking derive owner h).2.2 = 0) ∧
    ((fromFnPanicking dependentBuilder owner h).1 = none ∧
     (fromFnPanicking dependentBuilder owner h).2.1.lookupBlock h.nextAddr =
       some (BlockState.ownerOnly owner) ∧
     countEv (Event.dropOwner h.nextAddr)
       (fromFnPanicking dependentBuilder owner h).2.2 = 0 ∧
     countEv (Event.dealloc h.nextAddr)
       (fromFnPanicking dependentBuilder owner h).2.2 = 0) := by
  simp [newPanicking, fromFnPanicking, Heap.allocBlock, Heap.writeOwner,
        Heap.lookupBlock, Heap.setBlock, Heap.readOwner, hd, hb, countEv,
        List.find?]

/-- C8: the automatic Clone duplicates the owner and runs the direct
constructor on the copy: the duplicate's owner equals the original's, its
dependent is a fresh derivation from the duplicated owner, it lives in a
fresh block distinct from the original's allocation (which is untouched),
and automatic duplication is available exactly for the direct constructor
marker. -/
theorem clone_duplicates_owner_freshly (derive : O → D) (c : SelfCell)
    (h : Heap O D) (o : O) (hwf : h.wfb = true) (ho : borrowOwner c h = some o) :
    cloneCell derive c h = some (new derive o h) ∧
    borrowOwner (new derive o h).1 (new derive o h).2.1 = some o ∧
    borrowOwner c (new derive o h).2.1 = some o ∧
    borrowDependent (new derive o h).1 (new derive o h).2.1 = some (derive o) ∧
    (new derive o h).1.ptr ≠ c.ptr ∧
    (∀ m : ConstructorType, cloneAvailable m = true ↔ m = ConstructorType.fromOwner) := by
  have hex : ∃ b, h.lookupBlock c.ptr = some b := by
    unfold borrowOwner Heap.readOwner at ho
    cases hl : h.lookupBlock c.ptr with
    | none => rw [hl] at ho; cases ho
    | some b => exact ⟨b, rfl⟩
  rcases hex with ⟨b, hbk⟩
  have hlt : c.ptr < h.nextAddr := key_lt_of_lookup_some h c.ptr b hwf hbk
  have hne : (h.nextAddr == c.ptr) = false := by
    simp [Ne.symm (Nat.ne_of_lt hlt)]
  have hkeys := wfb_keys h hwf
  have hm1 := map_set_id_eq h.blocks h.nextAddr (BlockState.ownerOnly o) hkeys
  have hm2 := map_set_id_eq h.blocks h.nextAddr (BlockState.full o (derive o)) hkeys
  have hcell : (new derive o h).1 = ⟨h.nextAddr⟩ := rfl
  have hheap : (new derive o h).2.1 =
      ⟨(h.nextAddr, BlockState.full o (derive o)) :: h.blocks, h.nextAddr + 1⟩ := by
    simp [new, Heap.allocBlock, Heap.writeOwner, Heap.writeDep, Heap.lookupBlock,
          Heap.setBlock, Heap.readOwner, hm1, hm2, -List.map_map, List.find?]
  have hsame : ((new derive o h).2.1).lookupBlock c.ptr = h.lookupBlock c.ptr := by
    simp [hheap, Heap.lookupBlock, List.find?, hne]
  refine ⟨?_, ?_, ?_, ?_, ?_, ?_⟩
  · simp [cloneCell, ho]
  · simp [hcell, hheap, borrowOwner, Heap.readOwner, Heap.lookupBlock, List.find?]
  · have hsw : borrowOwner c (new derive o h).2.1 = borrowOwner c h := by
      unfold borrowOwner Heap.readOwner
      rw [hsame]
    rw [hsw, ho]
  · simp [hcell, hheap, borrowDependent, Heap.readDep, Heap.lookupBlock, List.find?]
  · rw [hcell]
    exact Ne.symm (Nat.ne_of_lt hlt)
  · intro m
    cases m <;> simp [cloneAvailable]

/-- C9: under the automatic Equality capability two cells compare equal
exactly when their owners compare equal; the result is the same for all
dependent values, so the dependents are not consulted. -/
theorem equality_compares_owners_only [DecidableEq O] (o1 o2 : O) (d1 d2 : D)
    (p1 p2 : Nat) (h : Heap O D)
    (hb1 : h.lookupBlock p1 = some (BlockState.full o1 d1))
    (hb2 : h.lookupBlock p2 = some (BlockState.full o2 d2)) :
    cellEq ⟨p1⟩ ⟨p2⟩ h = some (decide (o1 = o2)) ∧
    (cellEq ⟨p1⟩ ⟨p2⟩ h = some true ↔ o1 = o2) := by
  constructor
  · simp [cellEq, borrowOwner, Heap.readOwner, hb1, hb2]
  · simp [cellEq, borrowOwner, Heap.readOwner, hb1, hb2]

/-- C10: evaluation of the constructors at a failing allocation. The
source performs no check on the pointer returned by alloc: when the
allocator reports failure, the next step is the owner write through the
null pointer, a memory fault; no allocation error is reported to the
caller before the write, contradicting the claim. -/
theorem alloc_failure_unchecked_write :
    newAllocAware (fun n : Nat => n + 1) 3 true (Heap.empty Nat Nat) =
      Except.error MemFault.nullWrite ∧
    tryFromAllocAware (fun n : Nat => (Except.ok (n + 1) : Except Unit Nat)) 3 true
      (Heap.empty Nat Nat) = Except.error MemFault.nullWrite := by
  exact ⟨rfl, rfl⟩

/-- Witness for try_from_error_cleanup: a derivation that fails with
error 7 on owner 3, starting from the empty heap. -/
theorem try_from_error_cleanup_witness :
    (tryFrom (fun _ : Nat => (Except.error 7 : Except Nat Nat)) 3
        (Heap.empty Nat Nat)).1 = Except.error 7 ∧
    (tryFrom (fun _ : Nat => (Except.error 7 : Except Nat Nat)) 3
        (Heap.empty Nat Nat)).2.1.liveAddrs = (Heap.empty Nat Nat).liveAddrs ∧
    (tryFrom (fun _ : Nat => (Except.error 7 : Except Nat Nat)) 3
        (Heap.empty Nat Nat)).2.1.lookupBlock (Heap.empty Nat Nat).nextAddr = none ∧
    countEv (Event.dropOwner (Heap.empty Nat Nat).nextAddr)
      (tryFrom (fun _ : Nat => (Except.error 7 : Except Nat Nat)) 3
        (Heap.empty Nat Nat)).2.2 = 1 ∧
    countEv (Event.writeDep (Heap.empty Nat Nat).nextAddr)
      (tryFrom (fun _ : Nat => (Except.error 7 : Except Nat Nat)) 3
        (Heap.empty Nat Nat)).2.2 = 0 :=
  try_from_error_cleanup (fun _ : Nat => (Except.error 7 : Except Nat Nat)) 3 7
    (Heap.empty Nat Nat) (by decide) rfl

/-- Witness for owner_settled_before_dependent: concrete derivations on
owner 3 with a fallible derivation succeeding with value 4. -/
theorem owner_settled_before_dependent_witness :
    ((new (fun n : Nat => n * 2) 3 (Heap.empty Nat Nat)).2.2 =
        [Event.alloc (Heap.empty Nat Nat).nextAddr,
         Event.writeOwner (Heap.empty Nat Nat).nextAddr,
         Event.writeDep (Heap.empty Nat Nat).nextAddr] ∧
      firstIdx (Event.writeOwner (Heap.empty Nat Nat).nextAddr)
          (new (fun n : Nat => n * 2) 3 (Heap.empty Nat Nat)).2.2 <
        firstIdx (Event.writeDep (Heap.empty Nat Nat).nextAddr)
          (new (fun n : Nat => n * 2) 3 (Heap.empty Nat Nat)).2.2 ∧
      (new (fun n : Nat => n * 2) 3 (Heap.empty Nat Nat)).2.1.readOwner
          (Heap.empty Nat Nat).nextAddr = some 3 ∧
      (new (fun n : Nat => n * 2) 3 (Heap.empty Nat Nat)).2.1.readDep
          (Heap.empty Nat Nat).nextAddr = some ((fun n : Nat => n * 2) 3)) ∧
     ((fromFn (fun n : Nat => n + 10) 3 (Heap.empty Nat Nat)).2.2 =
        [Event.alloc (Heap.empty Nat Nat).nextAddr,
         Event.writeOwner (Heap.empty Nat Nat).nextAddr,
         Event.writeDep (Heap.empty Nat Nat).nextAddr] ∧
      firstIdx (Event.writeOwner (Heap.empty Nat Nat).nextAddr)
          (fromFn (fun n : Nat => n + 10) 3 (Heap.empty Nat Nat)).2.2 <
        firstIdx (Event.writeDep (Heap.empty Nat Nat).nextAddr)
          (fromFn (fun n : Nat => n + 10) 3 (Heap.empty Nat Nat)).2.2 ∧
      (fromFn (fun n : Nat => n + 10) 3 (Heap.empty Nat Nat)).2.1.readOwner
          (Heap.empty Nat Nat).nextAddr = some 3 ∧
      (fromFn (fun n : Nat => n + 10) 3 (Heap.empty Nat Nat)).2.1.readDep
          (Heap.empty Nat Nat).nextAddr = some ((fun n : Nat => n + 10) 3)) ∧
     ((tryFrom (fun n : Nat => (Except.ok (n + 1) : Except Unit Nat)) 3
          (Heap.empty Nat Nat)).2.2 =
        [Event.alloc (Heap.empty Nat Nat).nextAddr,
         Event.writeOwner (Heap.empty Nat Nat).nextAddr,
         Event.writeDep (Heap.empty Nat Nat).nextAddr] ∧
      firstIdx (Event.writeOwner (Heap.empty Nat Nat).nextAddr)
          (tryFrom (fun n : Nat => (Except.ok (n + 1) : Except Unit Nat)) 3
            (Heap.empty Nat Nat)).2.2 <
        firstIdx (Event.writeDep (Heap.empty Nat Nat).nextAddr)
          (tryFrom (fun n : Nat => (Except.ok (n + 1) : Except Unit Nat)) 3
            (Heap.empty Nat Nat)).2.2 ∧
      (tryFrom (fun n : Nat => (Except.ok (n + 1) : Except Unit Nat)) 3
          (Heap.empty Nat Nat)).2.1.readOwner
          (Heap.empty Nat Nat).nextAddr = some 3 ∧
      (tryFrom (fun n : Nat => (Except.ok (n + 1) : Except Unit Nat)) 3
          (Heap.empty Nat Nat)).2.1.readDep
          (Heap.empty Nat Nat).nextAddr = some 4) :=
  owner_settled_before_dependent (fun n : Nat => n * 2) (fun n : Nat => n + 10)
    (fun n : Nat => (Except.ok (n + 1) : Except Unit Nat)) 3 4 rfl
    (Heap.empty Nat Nat)

/-- Witness for panic_during_derivation_leaks: derivations that abort on
owner 3, starting from the empty heap. -/
theorem panic_during_derivation_leaks_witness :
    ((newPanicking (fun _ : Nat => (none : Option Nat)) 3 (Heap.empty Nat Nat)).1 =
        none ∧
     (newPanicking (fun _ : Nat => (none : Option Nat)) 3
        (Heap.empty Nat Nat)).2.1.lookupBlock (Heap.empty Nat Nat).nextAddr =
        some (BlockState.ownerOnly 3) ∧
     countEv (Event.dropOwner (Heap.empty Nat Nat).nextAddr)
       (newPanicking (fun _ : Nat => (none : Option Nat)) 3
         (Heap.empty Nat Nat)).2.2 = 0 ∧
     countEv (Event.dealloc (Heap.empty Nat Nat).nextAddr)
       (newPanicking (fun _ : Nat => (none : Option Nat)) 3
         (Heap.empty Nat Nat)).2.2 = 0) ∧
    ((fromFnPanicking (fun _ : Nat => (none : Option Nat)) 3
        (Heap.empty Nat Nat)).1 = none ∧
     (fromFnPanicking (fun _ : Nat => (none : Option Nat)) 3
        (Heap.empty Nat Nat)).2.1.lookupBlock (Heap.empty Nat Nat).nextAddr =
        some (BlockState.ownerOnly 3) ∧
     countEv (Event.dropOwner (Heap.empty Nat Nat).nextAddr)
       (fromFnPanicking (fun _ : Nat => (none : Option Nat)) 3
         (Heap.empty Nat Nat)).2.2 = 0 ∧
     countEv (Event.dealloc (Heap.empty Nat Nat).nextAddr)
       (fromFnPanicking (fun _ : Nat => (none : Option Nat)) 3
         (Heap.empty Nat Nat)).2.2 = 0) :=
  panic_during_derivation_leaks (fun _ : Nat => (none : Option Nat))
    (fun _ : Nat => (none : Option Nat)) 3 (Heap.empty Nat Nat) rfl rfl

/-- Witness for clone_duplicates_owner_freshly: a live cell at address 0
holding owner 5 and dependent 6, cloned with the derivation n + 1. -/
theorem clone_duplicates_owner_freshly_witness :
    cloneCell (fun n : Nat => n + 1) ⟨0⟩
        (⟨[(0, BlockState.full 5 6)], 1⟩ : Heap Nat Nat) =
      some (new (fun n : Nat => n + 1) 5
        (⟨[(0, BlockState.full 5 6)], 1⟩ : Heap Nat Nat)) ∧
    borrowOwner (new (fun n : Nat => n + 1) 5
        (⟨[(0, BlockState.full 5 6)], 1⟩ : Heap Nat Nat)).1
      (new (fun n : Nat => n + 1) 5
        (⟨[(0, BlockState.full 5 6)], 1⟩ : Heap Nat Nat)).2.1 = some 5 ∧
    borrowOwner ⟨0⟩
      (new (fun n : Nat => n + 1) 5
        (⟨[(0, BlockState.full 5 6)], 1⟩ : Heap Nat Nat)).2.1 = some 5 ∧
    borrowDependent (new (fun n : Nat => n + 1) 5
        (⟨[(0, BlockState.full 5 6)], 1⟩ : Heap Nat Nat)).1
      (new (fun n : Nat => n + 1) 5
        (⟨[(0, BlockState.full 5 6)], 1⟩ : Heap Nat Nat)).2.1 =
      some ((fun n : Nat => n + 1) 5) ∧
    (new (fun n : Nat => n + 1) 5
        (⟨[(0, BlockState.full 5 6)], 1⟩ : Heap Nat Nat)).1.ptr ≠
      (⟨0⟩ : SelfCell).ptr ∧
    (∀ m : ConstructorType, cloneAvailable m = true ↔ m = ConstructorType.fromOwner) :=
  clone_duplicates_owner_freshly (fun n : Nat => n + 1) ⟨0⟩
    (⟨[(0, BlockState.full 5 6)], 1⟩ : Heap Nat Nat) 5 (by decide) rfl

/-- Witness for equality_compares_owners_only: two cells with equal owners
but different dependents compare equal. -/
theorem equality_compares_owners_only_witness :
    cellEq ⟨0⟩ ⟨1⟩
        (⟨[(0, BlockState.full 1 10), (1, BlockState.full 1 99)], 2⟩ : Heap Nat Nat) =
      some (decide ((1 : Nat) = 1)) ∧
    (cellEq ⟨0⟩ ⟨1⟩
        (⟨[(0, BlockState.full 1 10), (1, BlockState.full 1 99)], 2⟩ : Heap Nat Nat) =
      some true ↔ (1 : Nat) = 1) :=
  equality_compares_owners_only 1 1 10 99 0 1
    (⟨[(0, BlockState.full 1 10), (1, BlockState.full 1 99)], 2⟩ : Heap Nat Nat)
    rfl rfl

end SelfCellModel

